import Mathlib

/-!
Verification development for the Corti JS SDK demo repository.

This file gives a shallow embedding of the repository's core logic and
proves (or refutes) the specified properties about it:

* `backend/ambientStream.js` — the session relay: audio queueing before
  configuration acceptance, queue flush, provider-event translation,
  graceful close (`handleAmbientConnection`, `sendAudioChunk`,
  `closeStream`, `handleCortiMessage`).
* `src/components/AmbientDocumentation.tsx` — the client-side fact
  reconciliation (`setFacts` reducer over a JS `Map`) and the transcript
  accumulator (final-segment upsert and interim handling).
* `src/components/DocumentGeneration.tsx` — section display ordering
  (`sections.sort((a, b) => (a.sort \x7c\x7c 0) - (b.sort \x7c\x7c 0))`).

JavaScript semantics that matter are modelled explicitly: `Map` keeps
insertion order, `set` on an existing key updates in place, `delete`
removes the entry; `Array.prototype.sort` is a stable in-place sort;
`x \x7c\x7c y` treats `0`, `undefined` and `false` as falsy. Optional
JSON fields are `Option` values (`none` = key absent).
-/

namespace CortiDemo

/-! ## Fact reconciliation (AmbientDocumentation.tsx, `setFacts` reducer) -/

/-- Fact record as held in client state (`interface Fact` in
`AmbientDocumentation.tsx`); optional JSON fields are `Option`,
and the backend's `facts` projection in `handleCortiMessage` forwards
exactly these fields. -/
structure Fact where
  id : String
  text : String
  group : String
  groupId : Option String := none
  isDiscarded : Option Bool := none
  source : Option String := none
  createdAt : Option String := none
  updatedAt : Option String := none
deriving DecidableEq

/-- JS `Map.set` on a map represented as its insertion-ordered entry
list with pairwise-distinct keys: update the entry in place if the key
exists, otherwise append. -/
def mapSet : List Fact → Fact → List Fact
  | [], f => [f]
  | g :: m, f => if g.id = f.id then f :: m else g :: mapSet m f

/-- JS `Map.delete`: remove the entry with the given key (an
insertion-ordered map holds at most one). -/
def mapDelete : List Fact → String → List Fact
  | [], _ => []
  | g :: m, i => if g.id = i then m else g :: mapDelete m i

/-- One step of the `msg.facts.forEach` body in the `facts` case of
`handleWebSocketMessage`: `if (!newFact.isDiscarded) factMap.set(...)
else factMap.delete(...)` (JS falsiness: only `true` is truthy here). -/
def factStep (m : List Fact) (f : Fact) : List Fact :=
  if f.isDiscarded = some true then mapDelete m f.id else mapSet m f

/-- The `new Map(prev.map(f => [f.id, f]))` construction: insert every
entry of `prev` in order into an empty map. -/
def toFactMap (prev : List Fact) : List Fact :=
  prev.foldl mapSet []

/-- The whole `setFacts` updater for one incoming `facts` batch: build
the map from `prev`, apply each batch element in order, and read the
values back in insertion order (`Array.from(factMap.values())`). -/
def applyFacts (prev batch : List Fact) : List Fact :=
  batch.foldl factStep (toFactMap prev)

/-- Ids of a fact list, in order. -/
def factIds (m : List Fact) : List String :=
  m.map Fact.id

/-- Lookup of the first fact with a given id (on a map entry list with
distinct keys, the lookup of JS `Map.get`). -/
def lookupFact (m : List Fact) (i : String) : Option Fact :=
  m.find? (fun g => g.id = i)

/-- Net effect of a batch on one id: `none` if the batch never mentions
the id, otherwise `some none` when the last mention is a discard and
`some (some f)` when the last mention is a non-discarded update `f`. -/
def lastOp (batch : List Fact) (i : String) : Option (Option Fact) :=
  (batch.reverse.find? (fun f => f.id = i)).map
    (fun f => if f.isDiscarded = some true then none else some f)

/-! ## Transcript accumulator (AmbientDocumentation.tsx, `transcript` case) -/

/-- Transcript segment as held in client state (`interface
TranscriptSegment`); `stop` models the source's `end` field (a Lean
keyword). -/
structure TranscriptSegment where
  id : String
  text : String
  isFinal : Bool
  speakerId : Option Int := none
  channel : Option Int := none
  start : Option Nat := none
  stop : Option Nat := none
deriving DecidableEq

/-- JS object spread `\x7b ...s, ...data \x7d` where `data` was produced by
`JSON.parse`: keys present in `data` win, keys absent from `data`
(dropped `undefined` values) keep `s`'s value. `id`, `text`, `isFinal`
are always emitted by the backend. -/
def mergeSegment (s d : TranscriptSegment) : TranscriptSegment :=
  { id := d.id, text := d.text, isFinal := d.isFinal,
    speakerId := d.speakerId.orElse (fun _ => s.speakerId),
    channel := d.channel.orElse (fun _ => s.channel),
    start := d.start.orElse (fun _ => s.start),
    stop := d.stop.orElse (fun _ => s.stop) }

/-- The `setSegments` updater for a final segment: replace in place when
some existing segment has the same id (`prev.some` + `prev.map`),
append otherwise. -/
def upsertSegment (prev : List TranscriptSegment) (d : TranscriptSegment) :
    List TranscriptSegment :=
  if prev.any (fun s => s.id = d.id) then
    prev.map (fun s => if s.id = d.id then mergeSegment s d else s)
  else prev ++ [d]

/-- Client transcript state: the finalized ordered sequence plus the
single current interim value. -/
structure TranscriptState where
  segments : List TranscriptSegment
  interim : String
deriving DecidableEq

/-- The `transcript` case of `handleWebSocketMessage`: a final segment
is upserted and the interim text is set to the empty string; a non-final
segment only replaces the interim text (`data.text \x7c\x7c ''`, with `text`
always present in our model). -/
def applyTranscript (st : TranscriptState) (d : TranscriptSegment) :
    TranscriptState :=
  if d.isFinal then
    { segments := upsertSegment st.segments d, interim := "" }
  else
    { st with interim := d.text }

/-- Non-final segment carrying the interim text `"foo"`. -/
def interimFoo : TranscriptSegment :=
  { id := "x", text := "foo", isFinal := false }

/-- Final segment with id `"a"` and text `"bar"`. -/
def finalBar : TranscriptSegment :=
  { id := "a", text := "bar", isFinal := true }

/-! ## Client-visible segment ids (ambientStream.js, `transcript` case) -/

/-- The id the backend emits for a provider transcript segment:
`segment.id + '-' + (segment.time?.start \x7c\x7c Math.random())`. A start
time of `0` (or an absent one) is falsy, so the suffix is then the
`Math.random()` draw; `rnd` is that draw's decimal rendering, supplied
as an oracle. Start times are modelled as naturals rendered by
`Nat.repr`. -/
def emittedSegmentId (pid : String) (timeStart : Option Nat) (rnd : String) :
    String :=
  pid ++ "-" ++
    (match timeStart with
      | some s => if s = 0 then rnd else Nat.repr s
      | none => rnd)

/-- Provider transcript segment as received from the stream (`segment`
in the `transcript` case of `handleCortiMessage`), with the
`Math.random()` draw for this segment attached as an oracle. -/
structure ProviderSegment where
  id : String
  transcript : String
  final : Bool
  speakerId : Option Int := none
  participantChannel : Option Int := none
  timeStart : Option Nat := none
  timeEnd : Option Nat := none
  rndDraw : String := "0"
deriving DecidableEq

/-- The client-facing segment object built in `handleCortiMessage` for
each provider segment. -/
def toClientSegment (g : ProviderSegment) : TranscriptSegment :=
  { id := emittedSegmentId g.id g.timeStart g.rndDraw,
    text := g.transcript, isFinal := g.final,
    speakerId := g.speakerId, channel := g.participantChannel,
    start := g.timeStart, stop := g.timeEnd }

/-! ## Session relay (ambientStream.js, `handleAmbientConnection`) -/

/-- Raw audio payload bytes, modelled as a string. -/
abbrev Frame := String

/-- Messages the relay emits to the browser (`sendToClient` payloads). -/
inductive ClientMsg
  | sessionStarted (interactionId : String)
  | configAccepted
  | transcriptMsg (data : TranscriptSegment)
  | factsMsg (facts : List Fact)
  | flushed
  | usageMsg (credits : Int)
  | ended
  | errorMsg (message : String)
deriving DecidableEq

/-- Messages arriving from the provider stream socket, as dispatched by
`handleCortiMessage`. `configError` covers `CONFIG_DENIED`,
`CONFIG_MISSING`, `CONFIG_NOT_PROVIDED`, `CONFIG_ALREADY_RECEIVED` and
`CONFIG_TIMEOUT` (kind plus optional reason); `other` is any unhandled
type. -/
inductive CortiMsg
  | configAcceptedMsg
  | configError (kind : String) (reason : Option String)
  | transcript (data : List ProviderSegment)
  | facts (facts : List Fact)
  | flushedMsg
  | usage (credits : Int)
  | endedMsg
  | streamError (detail : String)
  | other (t : String)
deriving DecidableEq

/-- Control vocabulary of valid JSON client messages: `flush`, `end`, or
any other/absent `type` (which falls through the `switch` untouched). -/
inductive Ctrl
  | flushCtrl
  | endCtrl
  | otherCtrl (t : String)
deriving DecidableEq

/-- One inbound browser WebSocket payload, after the handler's
JSON-vs-audio discrimination: `control`/`jsonOtherCtrl` for payloads that
parse as JSON, `badJson` for payloads that look like JSON (a string, or
a buffer starting with byte 123) but fail `JSON.parse` — the `catch`
branch treats those as audio — and `audio` for binary frames. -/
inductive ClientData
  | control (c : Ctrl)
  | badJson (payload : Frame)
  | audio (payload : Frame)
deriving DecidableEq

/-- Per-session relay state: the closure variables of
`handleAmbientConnection` plus the observable channel histories
(`sentAudio`: frames delivered to `streamSocket.sendAudio` in order;
`sentFlushCount`/`sentEnd`: provider control messages; `toClient`:
messages emitted to the browser in order; `clientOpen`: the browser
socket's `readyState === 1`). -/
structure RelayState where
  isConfigAccepted : Bool
  isStreamClosed : Bool
  isClientConnected : Bool
  clientOpen : Bool
  audioQueue : List Frame
  audioChunkCount : Nat
  sentAudio : List Frame
  sentFlushCount : Nat
  sentEnd : Bool
  toClient : List ClientMsg
deriving DecidableEq

/-- State right after the session is set up (interaction created,
stream connected, `session_started` already emitted). -/
def initRelay : RelayState :=
  { isConfigAccepted := false, isStreamClosed := false,
    isClientConnected := true, clientOpen := true,
    audioQueue := [], audioChunkCount := 0, sentAudio := [],
    sentFlushCount := 0, sentEnd := false, toClient := [] }

/-- The `sendToClient` helper: emit only while the client is connected
and its socket open (a failed `send` is caught and logged). -/
def emitClient (s : RelayState) (m : ClientMsg) : RelayState :=
  if s.isClientConnected && s.clientOpen then
    { s with toClient := s.toClient ++ [m] }
  else s

/-- The `closeStream` helper: a no-op when the stream is already marked
closed, otherwise send the provider a graceful `end` (exceptions are
caught) and mark the stream closed. -/
def closeStream (s : RelayState) : RelayState :=
  if s.isStreamClosed then s
  else { s with sentEnd := true, isStreamClosed := true }

/-- Result of `sendAudioChunk`: the audio queue, the frames delivered to
the provider, and the diagnostic chunk counter. -/
structure ChunkResult where
  queue : List Frame
  sent : List Frame
  count : Nat
deriving DecidableEq

/-- The source's `sendAudioChunk(socket, data, isReady, queue, onSent)`:
queue the frame while not ready; once ready, try `socket.sendAudio` —
`sendOk` says whether that call succeeds — and on success run `onSent`
(the counter increment); a failure is only logged. -/
def sendAudioChunk (isReady : Bool) (queue sent : List Frame) (count : Nat)
    (frame : Frame) (sendOk : Bool) : ChunkResult :=
  if !isReady then ⟨queue ++ [frame], sent, count⟩
  else if sendOk then ⟨queue, sent ++ [frame], count + 1⟩
  else ⟨queue, sent, count⟩

/-- Wiring of `sendAudioChunk` into the session state; in the relay
transition the provider send is modelled as succeeding (the failure
branch is covered through `sendAudioChunk`'s oracle directly). -/
def relaySendChunk (s : RelayState) (p : Frame) : RelayState :=
  let r := sendAudioChunk s.isConfigAccepted s.audioQueue s.sentAudio
    s.audioChunkCount p true
  { s with audioQueue := r.queue, sentAudio := r.sent,
           audioChunkCount := r.count }

/-- Body of the browser-message handler after its
`!streamSocket \x7c\x7c isStreamClosed` guard: `flush` forwards a flush
control, `end` runs `closeStream`, other JSON types fall through, and
everything else — including JSON-lookalike payloads that failed to
parse — goes to `sendAudioChunk`. -/
def stepClientData (s : RelayState) : ClientData → RelayState
  | .control .flushCtrl => { s with sentFlushCount := s.sentFlushCount + 1 }
  | .control .endCtrl => closeStream s
  | .control (.otherCtrl _) => s
  | .badJson p => relaySendChunk s p
  | .audio p => relaySendChunk s p

/-- The source's `handleCortiMessage(msg, sendToClient,
onConfigAccepted)`: translate one provider message into zero or more
client messages; on `CONFIG_ACCEPTED` also run the `onConfigAccepted`
callback, which sets the accepted flag, flushes the queued audio to the
provider in order (each send's exception caught; modelled as
succeeding) and drains the queue. Note the handler is not gated on
`isStreamClosed`. -/
def handleCortiMessage (s : RelayState) : CortiMsg → RelayState
  | .configAcceptedMsg =>
      let s1 := emitClient s .configAccepted
      { s1 with isConfigAccepted := true,
                sentAudio := s1.sentAudio ++ s1.audioQueue,
                audioQueue := [] }
  | .configError kind reason =>
      emitClient s (.errorMsg (kind ++ ": " ++ reason.getD "Unknown reason"))
  | .transcript data =>
      data.foldl (fun acc g => emitClient acc (.transcriptMsg (toClientSegment g))) s
  | .facts fs => emitClient s (.factsMsg fs)
  | .flushedMsg => emitClient s .flushed
  | .usage c => emitClient s (.usageMsg c)
  | .endedMsg => emitClient s .ended
  | .streamError d => emitClient s (.errorMsg d)
  | .other _ => s

/-- Session-level events: inbound browser payloads, browser
close/error, provider messages, provider error, provider close. -/
inductive RelayEvent
  | clientMsg (d : ClientData)
  | clientClose
  | clientError
  | providerMsg (m : CortiMsg)
  | providerError (message : String)
  | providerClose
deriving DecidableEq

/-- One event-loop step of `handleAmbientConnection`'s handlers:
`clientWs.on('message')` (guarded by `isStreamClosed`),
`clientWs.on('close')` (mark disconnected, `closeStream`),
`clientWs.on('error')` (mark disconnected), `streamSocket.on('message')`
(`handleCortiMessage`, unguarded), `streamSocket.on('error')` (emit an
error to the client) and `streamSocket.on('close')` (reset the accepted
flag, mark the stream closed — and nothing else). -/
def stepRelay (s : RelayState) : RelayEvent → RelayState
  | .clientMsg d => if s.isStreamClosed then s else stepClientData s d
  | .clientClose =>
      closeStream { s with isClientConnected := false, clientOpen := false }
  | .clientError => { s with isClientConnected := false }
  | .providerMsg m => handleCortiMessage s m
  | .providerError msg => emitClient s (.errorMsg ("Stream error: " ++ msg))
  | .providerClose => { s with isConfigAccepted := false, isStreamClosed := true }

/-- Run a sequence of events from a state. -/
def runRelay (s : RelayState) (es : List RelayEvent) : RelayState :=
  es.foldl stepRelay s

/-- Inbound audio events for a list of frames. -/
def audioEvents (l : List Frame) : List RelayEvent :=
  l.map (fun f => RelayEvent.clientMsg (ClientData.audio f))

/-- A session whose provider stream has been marked closed. -/
def closedRelayState : RelayState :=
  { initRelay with isStreamClosed := true }

/-! ## Document sections (DocumentGeneration.tsx, formatted view) -/

/-- Generated-document section (`interface DocumentSection`); `sort` is
`Option` since the display code guards it with `\x7c\x7c 0`. -/
structure DocSection where
  key : String
  name : String
  text : String
  sort : Option Int := none
deriving DecidableEq

/-- The comparator key `(a.sort \x7c\x7c 0)` (`0` is falsy, so `some 0` and
`none` coincide, as in the source). -/
def sortKey (s : DocSection) : Int :=
  s.sort.getD 0

/-- Comparison relation of the section comparator
`(a, b) => (a.sort \x7c\x7c 0) - (b.sort \x7c\x7c 0)`. -/
def secLE (a b : DocSection) : Prop :=
  sortKey a ≤ sortKey b

instance : DecidableRel secLE := fun a b =>
  inferInstanceAs (Decidable (sortKey a ≤ sortKey b))

instance : IsTotal DocSection secLE :=
  ⟨fun a b => le_total (sortKey a) (sortKey b)⟩

instance : IsTrans DocSection secLE :=
  ⟨fun _ _ _ hab hbc => le_trans hab hbc⟩

/-- The section list the formatted view renders:
`document.sections.sort(cmp)`. `Array.prototype.sort` is a stable sort,
modelled by insertion sort on the comparator's key order. -/
def displaySections (sections : List DocSection) : List DocSection :=
  List.insertionSort secLE sections

/-- JS `sort` sorts the array in place, so after a formatted render the
`sections` array held in React state is the sorted array itself. -/
def sectionsAfterRender (sections : List DocSection) : List DocSection :=
  displaySections sections

/-- Sections whose comparator key equals `c`, in list order; used to
state stability (ties keep their original relative order). -/
def keyFilter (c : Int) (l : List DocSection) : List DocSection :=
  l.filter (fun s => sortKey s = c)

/-- An out-of-order document section list. -/
def exSections : List DocSection :=
  [{ key := "a", name := "A", text := "ta", sort := some 2 },
   { key := "b", name := "B", text := "tb", sort := some 1 }]

/-- A fact with id 7, as first discovered. -/
def factSeven : Fact :=
  { id := "7", text := "old", group := "g" }

/-- A discard update for id 7. -/
def factSevenDiscard : Fact :=
  { id := "7", text := "old", group := "g", isDiscarded := some true }

/-- A later non-discarded update for id 7 with new attributes. -/
def factSevenNew : Fact :=
  { id := "7", text := "new", group := "g2" }

/-- A batch that sets, discards and re-sets id 1 and then sets id 2;
used to refute exact idempotence of `applyFacts`. -/
def idemBatch : List Fact :=
  [{ id := "1", text := "A", group := "g" },
   { id := "1", text := "A", group := "g", isDiscarded := some true },
   { id := "1", text := "B", group := "g" },
   { id := "2", text := "C", group := "g" }]

/-! ## Lemmas about the fact map operations -/

theorem factIds_mapSet_mem {m : List Fact} {f : Fact}
    (h : f.id ∈ factIds m) : factIds (mapSet m f) = factIds m := by
  induction m with
  | nil => simp [factIds] at h
  | cons g m ih =>
    by_cases hg : g.id = f.id
    · simp [mapSet, hg, factIds]
    · have hf : f.id ∈ factIds m := by
        simp only [factIds, List.map_cons, List.mem_cons] at h
        rcases h with h1 | h1
        · exact absurd h1.symm hg
        · exact h1
      simp only [mapSet, if_neg hg, factIds, List.map_cons, List.cons.injEq,
        true_and]
      exact ih hf

theorem factIds_mapSet_not_mem {m : List Fact} {f : Fact}
    (h : f.id ∉ factIds m) : factIds (mapSet m f) = factIds m ++ [f.id] := by
  induction m with
  | nil => simp [mapSet, factIds]
  | cons g m ih =>
    have hg : g.id ≠ f.id := by
      intro hgf
      exact h (by simp [factIds, hgf])
    have hm : f.id ∉ factIds m := by
      intro hmem
      apply h
      simp only [factIds, List.map_cons, List.mem_cons]
      right
      simpa [factIds] using hmem
    simp only [mapSet, if_neg hg, factIds, List.map_cons, List.cons_append,
      List.cons.injEq, true_and]
    exact ih hm

theorem nodup_factIds_mapSet {m : List Fact} {f : Fact}
    (h : (factIds m).Nodup) : (factIds (mapSet m f)).Nodup := by
  by_cases hmem : f.id ∈ factIds m
  · rw [factIds_mapSet_mem hmem]; exact h
  · rw [factIds_mapSet_not_mem hmem]
    simpa [List.nodup_append] using ⟨h, hmem⟩

theorem mapDelete_sublist (m : List Fact) (i : String) :
    List.Sublist (mapDelete m i) m := by
  induction m with
  | nil => simp [mapDelete]
  | cons g m ih =>
    by_cases hg : g.id = i
    · simp only [mapDelete, if_pos hg]
      exact List.sublist_cons_self g m
    · simp only [mapDelete, if_neg hg]
      exact ih.cons₂ g

theorem nodup_factIds_mapDelete {m : List Fact} {i : String}
    (h : (factIds m).Nodup) : (factIds (mapDelete m i)).Nodup :=
  ((mapDelete_sublist m i).map Fact.id).nodup h

theorem nodup_factIds_factStep {m : List Fact} {f : Fact}
    (h : (factIds m).Nodup) : (factIds (factStep m f)).Nodup := by
  unfold factStep
  split
  · exact nodup_factIds_mapDelete h
  · exact nodup_factIds_mapSet h

theorem nodup_factIds_foldl {B : List Fact} {m : List Fact}
    (h : (factIds m).Nodup) : (factIds (B.foldl factStep m)).Nodup := by
  induction B generalizing m with
  | nil => exact h
  | cons f B ih => exact ih (nodup_factIds_factStep h)

theorem foldl_mapSet_of_nodup {m acc : List Fact}
    (h : (factIds (acc ++ m)).Nodup) : m.foldl mapSet acc = acc ++ m := by
  induction m generalizing acc with
  | nil => simp
  | cons f m ih =>
    have hid : f.id ∉ factIds acc := by
      simp only [factIds, List.map_append, List.map_cons,
        List.nodup_append] at h
      intro hmem
      exact h.2.2 hmem (by simp)
    have hstep : mapSet acc f = acc ++ [f] := by
      clear h ih
      induction acc with
      | nil => simp [mapSet]
      | cons g acc ihacc =>
        have hg : g.id ≠ f.id := fun hgf => hid (by simp [factIds, hgf])
        have hacc : f.id ∉ factIds acc := by
          intro hmem
          apply hid
          simp only [factIds, List.map_cons, List.mem_cons]
          right
          simpa [factIds] using hmem
        simp [mapSet, hg, ihacc hacc]
    rw [List.foldl_cons, hstep]
    have h2 : (factIds ((acc ++ [f]) ++ m)).Nodup := by
      simpa [factIds] using h
    rw [ih h2]
    simp

theorem nodup_factIds_toFactMap (prev : List Fact) :
    (factIds (toFactMap prev)).Nodup := by
  unfold toFactMap
  induction prev using List.reverseRecOn with
  | nil => simp [factIds]
  | append_singleton l f ih =>
    rw [List.foldl_append, List.foldl_cons, List.foldl_nil]
    exact nodup_factIds_mapSet ih

theorem toFactMap_eq_self {m : List Fact}
    (h : (factIds m).Nodup) : toFactMap m = m := by
  unfold toFactMap
  simpa using @foldl_mapSet_of_nodup m [] (by simpa using h)

theorem nodup_factIds_applyFacts (S B : List Fact) :
    (factIds (applyFacts S B)).Nodup :=
  nodup_factIds_foldl (nodup_factIds_toFactMap S)

theorem lookupFact_mapSet (m : List Fact) (f : Fact) (i : String) :
    lookupFact (mapSet m f) i = if f.id = i then some f else lookupFact m i := by
  induction m with
  | nil =>
    by_cases hf : f.id = i <;> simp [mapSet, lookupFact, List.find?, hf]
  | cons g m ih =>
    by_cases hg : g.id = f.id
    · rw [show mapSet (g :: m) f = f :: m from by simp [mapSet, hg]]
      by_cases hf : f.id = i
      · simp [lookupFact, List.find?, hf]
      · have hgi : ¬ g.id = i := fun hq => hf (hg.symm.trans hq)
        simp [lookupFact, List.find?, hf, hgi]
    · rw [show mapSet (g :: m) f = g :: mapSet m f from by simp [mapSet, hg]]
      by_cases hgi : g.id = i
      · have hf : ¬ f.id = i := fun hq => hg (hgi.trans hq.symm)
        simp [lookupFact, List.find?, hgi, hf]
      · by_cases hf : f.id = i <;>
          simpa [lookupFact, List.find?, hgi, hf] using ih

theorem lookupFact_mapDelete {m : List Fact} (h : (factIds m).Nodup)
    (j i : String) :
    lookupFact (mapDelete m j) i = if j = i then none else lookupFact m i := by
  induction m with
  | nil => by_cases hj : j = i <;> simp [mapDelete, lookupFact, List.find?, hj]
  | cons g m ih =>
    have hm : (factIds m).Nodup := by
      simp only [factIds, List.map_cons, List.nodup_cons] at h
      exact h.2
    by_cases hg : g.id = j
    · have hgmem : g.id ∉ factIds m := by
        simp only [factIds, List.map_cons, List.nodup_cons] at h
        exact h.1
      by_cases hj : j = i
      · subst hj
        rw [if_pos rfl]
        simp only [mapDelete, if_pos hg]
        -- no entry with id j remains in m
        rw [lookupFact, List.find?_eq_none]
        intro x hx hxid
        exact hgmem (hg ▸ (by simpa using hxid) ▸ (List.mem_map_of_mem Fact.id hx))
      · have hgi : ¬ g.id = i := fun hq => hj (hg.symm.trans hq)
        rw [show mapDelete (g :: m) j = m from by simp [mapDelete, hg], if_neg hj]
        simp [lookupFact, List.find?, hgi]
    · rw [show mapDelete (g :: m) j = g :: mapDelete m j from by
        simp [mapDelete, hg]]
      by_cases hgi : g.id = i
      · have hj : ¬ j = i := fun hq => hg (by rw [hq, hgi])
        rw [if_neg hj]
        simp [lookupFact, List.find?, hgi]
      · by_cases hj : j = i <;>
          simpa [lookupFact, List.find?, hgi, hj] using ih hm

theorem lastOp_cons (f : Fact) (B : List Fact) (i : String) :
    lastOp (f :: B) i =
      ((lastOp B i).orElse (fun _ =>
        if f.id = i then
          some (if f.isDiscarded = some true then none else some f)
        else none)) := by
  unfold lastOp
  rw [List.reverse_cons, List.find?_append]
  by_cases hf : f.id = i <;>
    cases hfind : List.find? (fun g => g.id = i) B.reverse <;>
      simp [List.find?, hf, hfind]

theorem lookupFact_foldl_factStep {m : List Fact} {B : List Fact}
    (h : (factIds m).Nodup) (i : String) :
    lookupFact (B.foldl factStep m) i = (lastOp B i).getD (lookupFact m i) := by
  induction B generalizing m with
  | nil => simp [lastOp]
  | cons f B ih =>
    rw [List.foldl_cons, ih (nodup_factIds_factStep h), lastOp_cons]
    cases hlast : lastOp B i with
    | some r => simp [Option.orElse]
    | none =>
      by_cases hf : f.id = i
      · by_cases hd : f.isDiscarded = some true
        · rw [show factStep m f = mapDelete m f.id from by simp [factStep, hd]]
          rw [lookupFact_mapDelete h f.id i, if_pos hf]
          simp [Option.orElse, hf, hd]
        · rw [show factStep m f = mapSet m f from by simp [factStep, hd]]
          rw [lookupFact_mapSet m f i, if_pos hf]
          simp [Option.orElse, hf, hd]
      · have hsplit : factStep m f = mapDelete m f.id ∨ factStep m f = mapSet m f := by
          unfold factStep; split <;> simp
        rcases hsplit with h1 | h1 <;> rw [h1]
        · rw [lookupFact_mapDelete h f.id i, if_neg hf]
          simp [Option.orElse, hf]
        · rw [lookupFact_mapSet m f i, if_neg hf]
          simp [Option.orElse, hf]

theorem mem_iff_lookupFact {l : List Fact} (h : (factIds l).Nodup)
    (f : Fact) : f ∈ l ↔ lookupFact l f.id = some f := by
  constructor
  · intro hmem
    induction l with
    | nil => simp at hmem
    | cons g l ih =>
      have hl : (factIds l).Nodup := by
        simp only [factIds, List.map_cons, List.nodup_cons] at h
        exact h.2
      rcases List.mem_cons.1 hmem with h1 | h1
      · subst h1
        simp [lookupFact, List.find?]
      · have hgid : ¬ g.id = f.id := by
          intro hq
          simp only [factIds, List.map_cons, List.nodup_cons] at h
          exact h.1 (hq ▸ List.mem_map_of_mem Fact.id h1)
        simpa [lookupFact, List.find?, hgid] using (ih hl h1)
  · intro hlook
    exact List.mem_of_find?_eq_some hlook

theorem perm_of_lookupFact_eq {l₁ l₂ : List Fact}
    (h₁ : (factIds l₁).Nodup) (h₂ : (factIds l₂).Nodup)
    (h : ∀ i, lookupFact l₁ i = lookupFact l₂ i) : l₁.Perm l₂ := by
  rw [List.perm_ext_iff_of_nodup (h₁.of_map _) (h₂.of_map _)]
  intro f
  rw [mem_iff_lookupFact h₁ f, mem_iff_lookupFact h₂ f, h f.id]

/-! ## Claim theorems: fact reconciliation -/

/-- C2. Applying a fact batch keeps at most one visible entry per id; a
discarded update removes the id (no tombstone); a later non-discarded
update re-adds it with the new attributes; and a non-discarded update
for a present id keeps the id sequence (hence the id's discovery
position) unchanged while replacing the attributes. -/
theorem facts_claim_two (S B : List Fact) (f g : Fact)
    (hS : (factIds S).Nodup) (hf : f.isDiscarded = some true)
    (hg : ¬ g.isDiscarded = some true) (hid : g.id = f.id) :
    (factIds (applyFacts S B)).Nodup ∧
    f.id ∉ factIds (applyFacts S [f]) ∧
    lookupFact (applyFacts (applyFacts S [f]) [g]) f.id = some g ∧
    (g.id ∈ factIds S →
      factIds (applyFacts S [g]) = factIds S ∧
      lookupFact (applyFacts S [g]) g.id = some g) := by
  have hSmap : toFactMap S = S := toFactMap_eq_self hS
  refine ⟨nodup_factIds_applyFacts S B, ?_, ?_, ?_⟩
  · show f.id ∉ factIds (List.foldl factStep (toFactMap S) [f])
    rw [hSmap]
    simp only [List.foldl_cons, List.foldl_nil, factStep, if_pos hf]
    intro hmem
    simp only [factIds, List.mem_map] at hmem
    obtain ⟨x, hx, hxid⟩ := hmem
    -- x survives mapDelete with id f.id: impossible under Nodup
    have : lookupFact (mapDelete S f.id) f.id = none := by
      rw [lookupFact_mapDelete hS f.id f.id, if_pos rfl]
    have hnd : (factIds (mapDelete S f.id)).Nodup := nodup_factIds_mapDelete hS
    have hlx : lookupFact (mapDelete S f.id) x.id = some x :=
      (mem_iff_lookupFact hnd x).1 hx
    rw [hxid, this] at hlx
    simp at hlx
  · show lookupFact
      (List.foldl factStep (toFactMap (applyFacts S [f])) [g]) f.id = some g
    rw [toFactMap_eq_self (nodup_factIds_applyFacts S [f])]
    simp only [List.foldl_cons, List.foldl_nil, factStep, if_neg hg]
    rw [lookupFact_mapSet _ g f.id, if_pos hid]
  · intro hmem
    have happ : applyFacts S [g] = mapSet S g := by
      show List.foldl factStep (toFactMap S) [g] = mapSet S g
      rw [hSmap]
      simp [factStep, if_neg hg]
    refine ⟨?_, ?_⟩
    · rw [happ]
      exact factIds_mapSet_mem hmem
    · rw [happ, lookupFact_mapSet S g g.id, if_pos rfl]

/-- C3. Fact reconciliation is associative across batches: applying B1
then B2 equals applying their concatenation in one pass. -/
theorem facts_claim_three (S B1 B2 : List Fact) :
    applyFacts (applyFacts S B1) B2 = applyFacts S (B1 ++ B2) := by
  show List.foldl factStep (toFactMap (applyFacts S B1)) B2 =
    List.foldl factStep (toFactMap S) (B1 ++ B2)
  rw [toFactMap_eq_self (nodup_factIds_applyFacts S B1), List.foldl_append]
  rfl

/-- C7 counterexample. Fact reconciliation is not idempotent as an
operation on the ordered visible sequence: a batch that sets, discards
and re-sets id 1 and then sets id 2 yields `[1, 2]` on the first
application but `[2, 1]` on the second. -/
theorem facts_idempotent_counterexample :
    applyFacts (applyFacts [] idemBatch) idemBatch ≠
      applyFacts [] idemBatch := by decide

/-- C7 amended. Fact reconciliation is idempotent up to order: applying
a batch twice yields the same visible facts as applying it once — a
permutation of the single application (same entries, same per-id
lookup) — though the entry order can differ when the batch discards and
then re-adds an id. -/
theorem facts_claim_seven (S B : List Fact) :
    (applyFacts (applyFacts S B) B).Perm (applyFacts S B) := by
  have hR : (factIds (applyFacts S B)).Nodup := nodup_factIds_applyFacts S B
  apply perm_of_lookupFact_eq (nodup_factIds_applyFacts _ B) hR
  intro i
  show lookupFact (List.foldl factStep (toFactMap (applyFacts S B)) B) i = _
  rw [toFactMap_eq_self hR]
  rw [lookupFact_foldl_factStep hR i]
  show _ = lookupFact (List.foldl factStep (toFactMap S) B) i
  rw [lookupFact_foldl_factStep (nodup_factIds_toFactMap S) i]
  cases hlast : lastOp B i with
  | some r => simp
  | none =>
    simp only [Option.getD]
    show lookupFact (applyFacts S B) i = _
    have := @lookupFact_foldl_factStep (toFactMap S) B (nodup_factIds_toFactMap S) i
    rw [hlast] at this
    exact this

/-- Witness for C2 at the spec's id-7 scenario. -/
theorem facts_claim_two_witness :
    (factIds (applyFacts [factSeven] [factSevenNew])).Nodup ∧
    Fact.id factSevenDiscard ∉
      factIds (applyFacts [factSeven] [factSevenDiscard]) ∧
    lookupFact
      (applyFacts (applyFacts [factSeven] [factSevenDiscard]) [factSevenNew])
      (Fact.id factSevenDiscard) = some factSevenNew ∧
    (Fact.id factSevenNew ∈ factIds [factSeven] →
      factIds (applyFacts [factSeven] [factSevenNew]) = factIds [factSeven] ∧
      lookupFact (applyFacts [factSeven] [factSevenNew])
        (Fact.id factSevenNew) = some factSevenNew) :=
  facts_claim_two [factSeven] [factSevenNew] factSevenDiscard factSevenNew
    (by decide) (by decide) (by decide) (by decide)

/-! ## Claim theorems: transcript accumulator -/

theorem find?_map_upsert (l : List TranscriptSegment)
    (d s₀ : TranscriptSegment)
    (h : l.find? (fun s => s.id = d.id) = some s₀) :
    (l.map (fun s => if s.id = d.id then mergeSegment s d else s)).find?
      (fun s => s.id = d.id) = some (mergeSegment s₀ d) := by
  induction l with
  | nil => simp [List.find?] at h
  | cons g l ih =>
    by_cases hg : g.id = d.id
    · have hgs : g = s₀ := by
        simp [List.find?, hg] at h
        exact h
      subst hgs
      have hm : (mergeSegment g d).id = d.id := rfl
      simp [List.map_cons, hg, List.find?, hm]
    · have h2 : l.find? (fun s => s.id = d.id) = some s₀ := by
        simpa [List.find?, hg] using h
      simpa [List.map_cons, hg, List.find?] using ih h2

/-- C6. Applying a final segment always resets the interim value to the
empty string; the finalized sequence is updated by id — appended when
the id is new, replaced in place when it exists (the id sequence is
unchanged and the matching entry's attributes are replaced by the
incoming segment via the object spread); and concretely
`applyInterim "foo"` followed by `applyFinal` of the final `"bar"`
segment leaves an empty interim and exactly the one `"bar"` segment. -/
theorem transcript_claim_six (st : TranscriptState) (d : TranscriptSegment)
    (hd : d.isFinal = true) :
    (applyTranscript st d).interim = "" ∧
    (d.id ∉ st.segments.map TranscriptSegment.id →
      (applyTranscript st d).segments = st.segments ++ [d]) ∧
    (d.id ∈ st.segments.map TranscriptSegment.id →
      (applyTranscript st d).segments.map TranscriptSegment.id =
        st.segments.map TranscriptSegment.id) ∧
    (∀ s₀, st.segments.find? (fun s => s.id = d.id) = some s₀ →
      (applyTranscript st d).segments.find? (fun s => s.id = d.id) =
        some (mergeSegment s₀ d)) ∧
    applyTranscript (applyTranscript ⟨[], ""⟩ interimFoo) finalBar =
      ⟨[finalBar], ""⟩ := by
  have hany : ∀ l : List TranscriptSegment,
      (l.any (fun s => s.id = d.id)) = true ↔
        d.id ∈ l.map TranscriptSegment.id := by
    intro l
    simp [List.any_eq_true, List.mem_map]
  refine ⟨by simp [applyTranscript, hd], ?_, ?_, ?_, by decide⟩
  · intro hnot
    have : (st.segments.any (fun s => s.id = d.id)) = false := by
      rw [Bool.eq_false_iff]
      intro hq
      exact hnot ((hany _).1 hq)
    simp [applyTranscript, hd, upsertSegment, this]
  · intro hmem
    have hq : (st.segments.any (fun s => s.id = d.id)) = true := (hany _).2 hmem
    simp only [applyTranscript, hd, if_pos, upsertSegment, hq, if_true]
    rw [List.map_map]
    apply List.map_congr_left
    intro s _
    by_cases hs : s.id = d.id
    · simp [Function.comp, hs, mergeSegment]
    · simp [Function.comp, hs]
  · intro s₀ hfind
    have hs₀ : s₀ ∈ st.segments := List.mem_of_find?_eq_some hfind
    have hs₀id : s₀.id = d.id := by
      have := List.find?_some hfind
      simpa using this
    have hq : (st.segments.any (fun s => s.id = d.id)) = true :=
      (hany _).2 (hs₀id ▸ List.mem_map_of_mem TranscriptSegment.id hs₀)
    simp only [applyTranscript, hd, if_pos, upsertSegment, hq, if_true]
    exact find?_map_upsert st.segments d s₀ hfind

/-- Witness for C6 with an empty starting state and the `"bar"` final
segment. -/
theorem transcript_claim_six_witness :
    (applyTranscript ⟨[], "foo"⟩ finalBar).interim = "" ∧
    (applyTranscript ⟨[], "foo"⟩ finalBar).segments = [] ++ [finalBar] ∧
    applyTranscript (applyTranscript ⟨[], ""⟩ interimFoo) finalBar =
      ⟨[finalBar], ""⟩ := by
  have h := transcript_claim_six ⟨[], "foo"⟩ finalBar (by decide)
  exact ⟨h.1, h.2.1 (by decide), h.2.2.2.2⟩

/-! ## Claim theorems: session relay -/

theorem runRelay_append (s : RelayState) (l1 l2 : List RelayEvent) :
    runRelay s (l1 ++ l2) = runRelay (runRelay s l1) l2 :=
  List.foldl_append stepRelay s l1 l2

theorem runRelay_audio_queued (xs : List Frame) (s : RelayState)
    (hacc : s.isConfigAccepted = false) (hcl : s.isStreamClosed = false) :
    runRelay s (audioEvents xs) = { s with audioQueue := s.audioQueue ++ xs } := by
  induction xs generalizing s with
  | nil => simp [runRelay, audioEvents]
  | cons f xs ih =>
    simp only [audioEvents, List.map_cons, runRelay, List.foldl_cons]
    have hstep : stepRelay s (RelayEvent.clientMsg (ClientData.audio f)) =
        { s with audioQueue := s.audioQueue ++ [f] } := by
      simp [stepRelay, hcl, stepClientData, relaySendChunk, sendAudioChunk, hacc]
    rw [hstep]
    have := ih { s with audioQueue := s.audioQueue ++ [f] }
      (by simpa using hacc) (by simpa using hcl)
    simp only [runRelay, audioEvents] at this
    rw [this]
    simp

theorem runRelay_audio_sent (ys : List Frame) (s : RelayState)
    (hacc : s.isConfigAccepted = true) (hcl : s.isStreamClosed = false) :
    runRelay s (audioEvents ys) =
      { s with
        sentAudio := s.sentAudio ++ ys
        audioChunkCount := s.audioChunkCount + ys.length } := by
  induction ys generalizing s with
  | nil => simp [runRelay, audioEvents]
  | cons f ys ih =>
    simp only [audioEvents, List.map_cons, runRelay, List.foldl_cons]
    have hstep : stepRelay s (RelayEvent.clientMsg (ClientData.audio f)) =
        { s with
          sentAudio := s.sentAudio ++ [f]
          audioChunkCount := s.audioChunkCount + 1 } := by
      simp [stepRelay, hcl, stepClientData, relaySendChunk, sendAudioChunk, hacc]
    rw [hstep]
    have := ih { s with
      sentAudio := s.sentAudio ++ [f]
      audioChunkCount := s.audioChunkCount + 1 }
      (by simpa using hacc) (by simpa using hcl)
    simp only [runRelay, audioEvents] at this
    rw [this]
    simp only [List.append_assoc, List.singleton_append, List.length_cons]
    congr 1
    omega

/-- C1. Frames sent before configuration acceptance are queued (none
forwarded), the whole queue is flushed in arrival order exactly when
acceptance arrives (queue drained), and frames sent after acceptance
are forwarded immediately, so the provider receives exactly the
concatenation of the two sequences in original order — no drop, no
duplicate. -/
theorem relay_claim_one (xs ys : List Frame) :
    (runRelay initRelay (audioEvents xs)).sentAudio = [] ∧
    (runRelay initRelay (audioEvents xs)).audioQueue = xs ∧
    (runRelay initRelay (audioEvents xs ++
      [RelayEvent.providerMsg CortiMsg.configAcceptedMsg])).sentAudio = xs ∧
    (runRelay initRelay (audioEvents xs ++
      [RelayEvent.providerMsg CortiMsg.configAcceptedMsg])).audioQueue = [] ∧
    (runRelay initRelay (audioEvents xs ++
      [RelayEvent.providerMsg CortiMsg.configAcceptedMsg] ++
      audioEvents ys)).sentAudio = xs ++ ys := by
  have h1 : runRelay initRelay (audioEvents xs) =
      { initRelay with audioQueue := xs } := by
    rw [runRelay_audio_queued xs initRelay rfl rfl]
    simp [initRelay]
  have h2 : runRelay initRelay (audioEvents xs ++
      [RelayEvent.providerMsg CortiMsg.configAcceptedMsg]) =
      { initRelay with
        audioQueue := []
        isConfigAccepted := true
        sentAudio := xs
        toClient := [ClientMsg.configAccepted] } := by
    rw [runRelay_append, h1]
    simp [runRelay, stepRelay, handleCortiMessage, emitClient, initRelay]
  refine ⟨by rw [h1]; try simp [initRelay], by rw [h1]; try simp [initRelay],
    by rw [h2]; try simp [initRelay], by rw [h2]; try simp [initRelay], ?_⟩
  rw [runRelay_append, h2,
    runRelay_audio_sent ys _ (by simp) (by simp [initRelay])]
  try simp

/-- C4 counterexample. After the provider stream closes (a terminal
state), a further provider event is not a no-op: a `usage` message is
still translated and emitted to the still-connected browser. -/
theorem relay_terminal_counterexample :
    stepRelay (stepRelay initRelay RelayEvent.providerClose)
      (RelayEvent.providerMsg (CortiMsg.usage 5)) ≠
    stepRelay initRelay RelayEvent.providerClose := by decide

/-- C4 amended. Once the stream is marked closed, every further inbound
browser payload — audio, control, or malformed — is a no-op (no state
change, no emission, no exception); provider events, by contrast, are
not gated on the terminal state. -/
theorem relay_claim_four (s : RelayState) (d : ClientData)
    (h : s.isStreamClosed = true) :
    stepRelay s (RelayEvent.clientMsg d) = s := by
  simp [stepRelay, h]

/-- Witness for C4 (amended) on a closed session receiving an `end`
control. -/
theorem relay_claim_four_witness :
    stepRelay closedRelayState
      (RelayEvent.clientMsg (ClientData.control Ctrl.endCtrl)) =
    closedRelayState :=
  relay_claim_four closedRelayState (ClientData.control Ctrl.endCtrl)
    (by decide)

/-- C5 counterexample. A provider disconnect does not close the browser
connection: the `close` handler only resets the accepted flag and marks
the stream closed, leaving the browser socket open and connected. -/
theorem relay_disconnect_counterexample :
    (stepRelay initRelay RelayEvent.providerClose).clientOpen = true ∧
    (stepRelay initRelay RelayEvent.providerClose).isClientConnected = true ∧
    stepRelay initRelay RelayEvent.providerClose =
      { initRelay with isConfigAccepted := false, isStreamClosed := true } := by
  decide

/-- C5 amended. A browser disconnect gracefully closes the provider
side when it is not already closing (an `end` is sent, the stream is
marked closed); closing is idempotent and total — on an already-closed
session it is a no-op and raises nothing; a provider disconnect only
resets the accepted flag and marks the stream closed, without touching
the browser connection. -/
theorem relay_claim_five (s : RelayState) (hopen : s.isStreamClosed = false) :
    (stepRelay s RelayEvent.clientClose).isStreamClosed = true ∧
    (stepRelay s RelayEvent.clientClose).sentEnd = true ∧
    (∀ t : RelayState, t.isStreamClosed = true → closeStream t = t) ∧
    closeStream (closeStream s) = closeStream s ∧
    stepRelay s RelayEvent.providerClose =
      { s with isConfigAccepted := false, isStreamClosed := true } := by
  refine ⟨?_, ?_, ?_, ?_, rfl⟩
  · simp [stepRelay, closeStream, hopen]
  · simp [stepRelay, closeStream, hopen]
  · intro t ht
    simp [closeStream, ht]
  · simp [closeStream, hopen]

/-- Witness for C5 (amended) from the freshly set-up session state. -/
theorem relay_claim_five_witness :
    (stepRelay initRelay RelayEvent.clientClose).isStreamClosed = true ∧
    (stepRelay initRelay RelayEvent.clientClose).sentEnd = true :=
  ⟨(relay_claim_five initRelay rfl).1, (relay_claim_five initRelay rfl).2.1⟩

/-- C8 counterexample. A malformed inbound client message is not merely
logged with the session state unchanged: the parse-failure branch
treats it as an audio frame, so it lands in the audio queue (or goes to
the provider). -/
theorem relay_malformed_counterexample :
    stepRelay initRelay (RelayEvent.clientMsg (ClientData.badJson "x")) ≠
      initRelay := by decide

/-- C8 amended. A malformed client message raises no exception and
emits no error to the browser, but it is treated as an audio frame:
queued before acceptance, forwarded after. A single audio-frame
forwarding failure is logged only — queue, forwarded frames and counter
are unchanged and no exception escapes — and a subsequent frame is
forwarded normally. -/
theorem relay_claim_eight (s : RelayState) (p : Frame) (q snt : List Frame)
    (c : Nat) (f g : Frame) (hcl : s.isStreamClosed = false) :
    (s.isConfigAccepted = false →
      stepRelay s (RelayEvent.clientMsg (ClientData.badJson p)) =
        { s with audioQueue := s.audioQueue ++ [p] }) ∧
    (s.isConfigAccepted = true →
      stepRelay s (RelayEvent.clientMsg (ClientData.badJson p)) =
        { s with
          sentAudio := s.sentAudio ++ [p]
          audioChunkCount := s.audioChunkCount + 1 }) ∧
    sendAudioChunk true q snt c f false = ⟨q, snt, c⟩ ∧
    sendAudioChunk true q snt c g true = ⟨q, snt ++ [g], c + 1⟩ := by
  refine ⟨?_, ?_, by simp [sendAudioChunk], by simp [sendAudioChunk]⟩
  · intro hacc
    simp [stepRelay, hcl, stepClientData, relaySendChunk, sendAudioChunk, hacc]
  · intro hacc
    simp [stepRelay, hcl, stepClientData, relaySendChunk, sendAudioChunk, hacc]

/-- Witness for C8 (amended): the fresh session queues a malformed
payload, and a failing then a succeeding forward behave as stated. -/
theorem relay_claim_eight_witness :
    stepRelay initRelay (RelayEvent.clientMsg (ClientData.badJson "x")) =
      { initRelay with audioQueue := ["x"] } ∧
    sendAudioChunk true ["q"] ["s"] 1 "f" false = ⟨["q"], ["s"], 1⟩ := by
  have h := relay_claim_eight initRelay "x" ["q"] ["s"] 1 "f" "g" rfl
  exact ⟨by simpa [initRelay] using h.1 rfl, h.2.2.1⟩

/-! ## Claim theorems: document section display -/

theorem keyFilter_orderedInsert_ne (x : DocSection) (l : List DocSection)
    (c : Int) (hx : ¬ sortKey x = c) :
    keyFilter c (List.orderedInsert secLE x l) = keyFilter c l := by
  induction l with
  | nil => simp [List.orderedInsert, keyFilter, hx]
  | cons b l ih =>
    by_cases hb : secLE x b
    · simp [List.orderedInsert, hb, keyFilter, hx]
    · by_cases hbc : sortKey b = c <;>
        simpa [List.orderedInsert, hb, keyFilter, hbc] using ih

theorem keyFilter_orderedInsert_eq (x : DocSection) (l : List DocSection)
    (c : Int) (hx : sortKey x = c) (hl : l.Sorted secLE) :
    keyFilter c (List.orderedInsert secLE x l) = x :: keyFilter c l := by
  induction l with
  | nil => simp [List.orderedInsert, keyFilter, hx]
  | cons b l ih =>
    by_cases hb : secLE x b
    · simp [List.orderedInsert, hb, keyFilter, hx]
    · have hbc : ¬ sortKey b = c := by
        intro hq
        exact hb (by simp only [secLE, hx, hq]; exact le_refl c)
      have hl2 : l.Sorted secLE := hl.of_cons
      simpa [List.orderedInsert, hb, keyFilter, hbc] using ih hl2

theorem keyFilter_displaySections (l : List DocSection) (c : Int) :
    keyFilter c (displaySections l) = keyFilter c l := by
  induction l with
  | nil => rfl
  | cons b l ih =>
    show keyFilter c (List.orderedInsert secLE b (List.insertionSort secLE l)) =
      keyFilter c (b :: l)
    by_cases hb : sortKey b = c
    · rw [keyFilter_orderedInsert_eq b _ c hb (List.sorted_insertionSort secLE l)]
      rw [show keyFilter c (b :: l) = b :: keyFilter c l from by
        simp [keyFilter, hb]]
      rw [show keyFilter c (List.insertionSort secLE l) = keyFilter c l from ih]
    · rw [keyFilter_orderedInsert_ne b _ c hb]
      rw [show keyFilter c (b :: l) = keyFilter c l from by simp [keyFilter, hb]]
      exact ih

/-- C9 counterexample. The received document is mutated by the display
logic: rendering the formatted view sorts the `sections` array in
place, so a document whose sections arrive out of `sort` order has its
stored sequence reordered by rendering. -/
theorem doc_mutation_counterexample :
    sectionsAfterRender exSections ≠ exSections := by decide

/-- C9 amended. The formatted view displays sections in ascending
`sort` order with ties kept in original order (a stable sort of the
received sequence, hence a permutation of it — no section is added,
dropped or edited); however `Array.prototype.sort` works in place, so
the sections array held in state becomes the sorted array itself, a
mutation whenever the received order was not already sorted. -/
theorem doc_claim_nine (sections : List DocSection) (c : Int) :
    List.Sorted secLE (displaySections sections) ∧
    (displaySections sections).Perm sections ∧
    keyFilter c (displaySections sections) = keyFilter c sections ∧
    sectionsAfterRender sections = displaySections sections := by
  exact ⟨List.sorted_insertionSort secLE sections,
    List.perm_insertionSort secLE sections,
    keyFilter_displaySections sections c, rfl⟩

/-! ## Claim theorems: client-visible segment ids -/

theorem string_append_left_cancel {a r1 r2 : String}
    (h : a ++ r1 = a ++ r2) : r1 = r2 := by
  apply String.ext
  have hd := congrArg String.data h
  simp only [String.data_append] at hd
  exact List.append_cancel_left hd

/-- C10. The emitted client-visible segment id is the provider id, a
dash, and the segment's start time whenever that start is present and
nonzero — so revisions with equal provider id and equal start share the
client id; when the start is absent or zero, the suffix is the fresh
`Math.random()` draw, so revisions with distinct draws receive distinct
client ids and are never deduplicated. -/
theorem relay_claim_ten (pid : String) (s : Nat) (r r1 r2 : String)
    (hs : s ≠ 0) (hr : r1 ≠ r2) :
    emittedSegmentId pid (some s) r = pid ++ "-" ++ Nat.repr s ∧
    emittedSegmentId pid (some 0) r = pid ++ "-" ++ r ∧
    emittedSegmentId pid none r = pid ++ "-" ++ r ∧
    emittedSegmentId pid (some 0) r1 ≠ emittedSegmentId pid (some 0) r2 ∧
    emittedSegmentId pid none r1 ≠ emittedSegmentId pid none r2 := by
  refine ⟨by simp [emittedSegmentId, hs], by simp [emittedSegmentId],
    by simp [emittedSegmentId], ?_, ?_⟩
  · intro hq
    simp only [emittedSegmentId, if_pos rfl] at hq
    exact hr (string_append_left_cancel hq)
  · intro hq
    simp only [emittedSegmentId] at hq
    exact hr (string_append_left_cancel hq)

/-- Witness for C10 at provider id `"p"`, start 3, and two distinct
random draws. -/
theorem relay_claim_ten_witness :
    emittedSegmentId "p" (some 3) "q" = "p" ++ "-" ++ Nat.repr 3 ∧
    emittedSegmentId "p" (some 0) "a" ≠ emittedSegmentId "p" (some 0) "b" := by
  have h := relay_claim_ten "p" 3 "q" "a" "b" (by decide) (by decide)
  exact ⟨h.1, h.2.2.2.1⟩

end CortiDemo

